import Mathlib

/-!
Verification of the glyph cache and texture packer of this repository.

The Rust source is embedded shallowly:
* `u32` coordinates become `Nat` (subtraction is truncated, matching the
  places where the source subtracts; no subtraction below zero occurs on
  the paths modelled here);
* `f32` arithmetic is idealised as exact rational arithmetic (`ℚ`); every
  concrete input used in a theorem below is a dyadic rational whose `f32`
  computation is exact, so the idealisation is faithful at those inputs;
* `&mut self` methods become explicit state passing: a method returns its
  result together with the new state, and an early `return`/`?` returns
  the state as it stood at that point;
* `HashMap`/`HashSet` become association lists / lists of keys: only
  membership and lookup are relied upon, and iteration order (which the
  Rust `HashMap` leaves unspecified) is fixed to list order;
* external collaborators (GPU textures, the rasterizer) are black boxes: the
  GPU texture handle carried by each atlas is not modelled, and the atlas
  pixel buffer is abstracted to the journal of row blits performed on it.
-/

/-- The `glam::UVec2`, a pair of `u32` coordinates. -/
structure UVec2 where
  x : Nat
  y : Nat
deriving DecidableEq, Repr

/-- Modelled from the spec: the axis-aligned `u32` rectangle `URect` of the
external `glam_rect` crate (the repository's geometry primitive collaborator),
given by its top-left and bottom-right corners. -/
structure URect where
  topLeft : UVec2
  bottomRight : UVec2
deriving DecidableEq, Repr

/-- Modelled from the spec: `URect::width`, the horizontal extent. -/
def URect.width (r : URect) : Nat := r.bottomRight.x - r.topLeft.x

/-- Modelled from the spec: `URect::height`, the vertical extent. -/
def URect.height (r : URect) : Nat := r.bottomRight.y - r.topLeft.y

/-- Modelled from the spec: `URect::is_zero_area`, true when either
dimension is zero ("the underneath-space is non-empty" test of §4.2). -/
def URect.isZeroArea (r : URect) : Bool := r.width == 0 || r.height == 0

/-- The `TexturePackerError` from `src/texture_packer.rs`. -/
inductive PackerError where
  | notEnoughSpace
deriving DecidableEq, Repr

/-- The `TexturePacker`: the free-region list.  (`FreeRegion` is a transparent
wrapper around its rectangle and is inlined here.) -/
structure Packer where
  areas : List URect
deriving DecidableEq, Repr

/-- The `TexturePacker::new`: one free region covering the whole area. -/
def Packer.new (width height : Nat) : Packer :=
  ⟨[⟨⟨0, 0⟩, ⟨width, height⟩⟩]⟩

/-- One iteration of the best-fit scan loop in `TexturePacker::try_allocate`
(lines 68-85): skip regions the inflated size does not fit, otherwise
replace the current best when there is none yet or when the current best's
width and height are both ≥ the candidate's. -/
def updateBest (width height : Nat) (best : Option (Nat × URect)) (i : Nat)
    (r : URect) : Option (Nat × URect) :=
  if width > r.width || height > r.height then best
  else
    match best with
    | none => some (i, r)
    | some (_, b) =>
      if b.width ≥ r.width && b.height ≥ r.height then some (i, r) else best

/-- The scan loop of `try_allocate`, carrying the running best and the index
of the next region. -/
def scanFrom (width height : Nat) (best : Option (Nat × URect)) (i : Nat) :
    List URect → Option (Nat × URect)
  | [] => best
  | r :: rest => scanFrom width height (updateBest width height best i r) (i + 1) rest

/-- The chosen region (with its index) of the scan in `try_allocate`. -/
def bestIndex (areas : List URect) (width height : Nat) : Option (Nat × URect) :=
  scanFrom width height none 0 areas

/-- The `TexturePacker::try_allocate` (`src/texture_packer.rs` lines 55-111),
translated line by line.  Note the source destructures only `top_left` of
the chosen region (`let URect { top_left, .. } = best_area.rect;`), so both
leftover rectangles below are computed from the allocation's own
bottom-right corner. -/
def tryAllocate (p : Packer) (size : UVec2) : Except PackerError URect × Packer :=
  if size.x == 0 || size.y == 0 then (Except.ok ⟨⟨0, 0⟩, size⟩, p)
  else
    let size : UVec2 := ⟨size.x + 2, size.y + 2⟩
    let width := size.x
    let height := size.y
    match bestIndex p.areas width height with
    | none => (Except.error PackerError.notEnoughSpace, p)
    | some (i, best) =>
      let top_left := best.topLeft
      let bottom_right : UVec2 := ⟨top_left.x + size.x, top_left.y + size.y⟩
      let space_underneath : URect := ⟨⟨top_left.x, bottom_right.y⟩, bottom_right⟩
      let top_right : UVec2 := ⟨bottom_right.x, top_left.y⟩
      let space_right : URect := ⟨⟨bottom_right.x, top_left.y⟩, top_right⟩
      let areas' :=
        if space_right.isZeroArea then p.areas.set i space_underneath
        else
          let base := p.areas.set i space_right
          if !space_underneath.isZeroArea then base ++ [space_underneath] else base
      (Except.ok ⟨⟨top_left.x + 1, top_left.y + 1⟩,
                  ⟨bottom_right.x - 1, bottom_right.y - 1⟩⟩,
       ⟨areas'⟩)

/-- Second state of the C2 counterexample packer: two free regions of equal
dimensions at different positions. -/
def c2Areas : List URect := [⟨⟨0, 0⟩, ⟨10, 10⟩⟩, ⟨⟨20, 0⟩, ⟨30, 10⟩⟩]

/-- The `GlyphCacheTextureAppendError` from `src/font_cache.rs`. -/
inductive GlyphAppendError where
  | notEnoughSpace
deriving DecidableEq, Repr

/-- The `GlyphCacheTexture` (one atlas).  The GPU texture handle is an external
resource and is not modelled; the `BitmapRGBA` pixel buffer is abstracted to
the journal of `draw_bitmap_at` row-blits performed on it (position and
size of each source bitmap; a zero-size blit writes no pixels and is not
recorded).  `entries` is the key → placed-rectangle map. -/
structure GlyphCacheTexture where
  blits : List (UVec2 × UVec2)
  invalidated : Bool
  packer : Packer
  entries : List (Nat × URect)
deriving DecidableEq, Repr

/-- The `GlyphCacheTexture::SIZE`. -/
def GlyphCacheTexture.SIZE : Nat := 1024

/-- The `GlyphCacheTexture::new` (the GPU texture creation it performs is an
external operation; its possible failure is accounted for in the theorems
about `prepare_for_draw` only through the append-failure path). -/
def GlyphCacheTexture.new : GlyphCacheTexture :=
  ⟨[], false, Packer.new GlyphCacheTexture.SIZE GlyphCacheTexture.SIZE, []⟩

/-- The `GlyphCacheTexture::clear`: reset the dirty flag, the packer, the
placement map, and zero the bitmap. -/
def GlyphCacheTexture.clear (_t : GlyphCacheTexture) : GlyphCacheTexture :=
  ⟨[], false, Packer.new GlyphCacheTexture.SIZE GlyphCacheTexture.SIZE, []⟩

/-- The `HashMap::insert` on an association list: any previous binding of the
key is dropped and the new binding is added. -/
def assocSet (k : Nat) (v : URect) (l : List (Nat × URect)) : List (Nat × URect) :=
  (k, v) :: l.filter (fun kv => kv.1 != k)

/-- The `GlyphCacheTexture::try_append_glyph` (`src/font_cache.rs` lines
625-640): delegate to the packer (the `?` propagates `NotEnoughSpace`
without touching the bitmap, the map or the dirty flag), then blit the
glyph bitmap at the placement's top-left, record the placement and set the
dirty flag.  The glyph bitmap is abstracted to its size. -/
def GlyphCacheTexture.tryAppendGlyph (t : GlyphCacheTexture) (key : Nat)
    (size : UVec2) : Except GlyphAppendError Unit × GlyphCacheTexture :=
  match tryAllocate t.packer size with
  | (Except.error _, p') => (Except.error GlyphAppendError.notEnoughSpace, { t with packer := p' })
  | (Except.ok area, p') =>
    (Except.ok (),
     { blits := t.blits ++ (if size.x == 0 || size.y == 0 then [] else [(area.topLeft, size)]),
       invalidated := true,
       packer := p',
       entries := assocSet key area t.entries })

/-- The `GlyphCacheEntry`: the shared rasterized bitmap is abstracted to its
pixel size (its contents are immutable and never inspected by the cache
logic), together with the bounding-box offset and the optional atlas
index. -/
structure GlyphCacheEntry where
  bmpSize : UVec2
  boundingBoxOffset : Int × Int
  textureId : Option Nat
deriving DecidableEq, Repr

/-- The `GlyphCache`: the two liveness generations (sets of keys, as lists with
membership semantics), the key → entry map (association list; keys are
abstract hashable values, modelled as `Nat`), and the atlas list. -/
structure GlyphCache where
  lastFrame : List Nat
  thisFrame : List Nat
  cacheEntries : List (Nat × GlyphCacheEntry)
  textures : List GlyphCacheTexture
deriving DecidableEq, Repr

/-- The `GlyphCache::new`. -/
def GlyphCache.new : GlyphCache := ⟨[], [], [], []⟩

/-- Lookup in a key → value association list (`HashMap::get`). -/
def lookupE {α : Type} (k : Nat) : List (Nat × α) → Option α
  | [] => none
  | (k', e) :: rest => if k' == k then some e else lookupE k rest

/-- The key set of an association list. -/
def keysOf {α : Type} (l : List (Nat × α)) : List Nat := l.map Prod.fst

/-- The `GlyphCache::add_to_cache` (`src/font_cache.rs` lines 245-307).  The
key has already been computed from the positioned glyph (the quantizer is
modelled separately); `raster` is the outcome of the external rasteriza-
tion: `none` when the pixel bounding box is empty or exceeds the atlas
size (no entry is created, lines 274-292), otherwise the bitmap size and
bounding-box offset.  The key is always inserted into `this_frame`; an
entry is created only when the key is vacant. -/
def addToCache (s : GlyphCache) (key : Nat)
    (raster : Option (UVec2 × (Int × Int))) : GlyphCache :=
  { s with
    thisFrame := key :: s.thisFrame,
    cacheEntries :=
      match lookupE key s.cacheEntries with
      | some _ => s.cacheEntries
      | none =>
        match raster with
        | none => s.cacheEntries
        | some (size, off) => (key, ⟨size, off, none⟩) :: s.cacheEntries }

/-- The `GlyphCache::on_new_frame_start` (lines 309-312): clear `last_frame`
and swap it with `this_frame`. -/
def onNewFrameStart (s : GlyphCache) : GlyphCache :=
  { s with lastFrame := s.thisFrame, thisFrame := [] }

/-- The `GlyphCache::try_append_to_existing_texture` (lines 403-419): try each
atlas in index order, returning the index of the first success; every
atlas is threaded through its (possibly mutated) state. -/
def tryAppendToExistingTexture : List GlyphCacheTexture → Nat → UVec2 →
    Option Nat × List GlyphCacheTexture
  | [], _, _ => (none, [])
  | t :: rest, key, size =>
    match t.tryAppendGlyph key size with
    | (Except.ok _, t') => (some 0, t' :: rest)
    | (Except.error _, t') =>
      match tryAppendToExistingTexture rest key size with
      | (some i, rest') => (some (i + 1), t' :: rest')
      | (none, rest') => (none, t' :: rest')

/-- Result of phase 1 (`GlyphCache::try_insert_pending`). -/
structure Phase1Result where
  entries : List (Nat × GlyphCacheEntry)
  textures : List GlyphCacheTexture
  ok : Bool
deriving DecidableEq, Repr

/-- The `GlyphCache::try_insert_pending` (lines 387-401): for every entry with
no atlas index, append its bitmap to the first atlas that accepts it; the
`?` aborts on the first failure, keeping the placements made so far. -/
def tryInsertPending : List (Nat × GlyphCacheEntry) → List GlyphCacheTexture →
    Phase1Result
  | [], ts => ⟨[], ts, true⟩
  | (k, e) :: rest, ts =>
    match e.textureId with
    | some _ =>
      let r := tryInsertPending rest ts
      ⟨(k, e) :: r.entries, r.textures, r.ok⟩
    | none =>
      match tryAppendToExistingTexture ts k e.bmpSize with
      | (some i, ts') =>
        let r := tryInsertPending rest ts'
        ⟨(k, { e with textureId := some i }) :: r.entries, r.textures, r.ok⟩
      | (none, ts') => ⟨(k, e) :: rest, ts', false⟩

/-- The `Vec::pop`: remove and return the last element. -/
def vecPop {α : Type} (l : List α) : Option (α × List α) :=
  match l.getLast? with
  | none => none
  | some x => some (x, l.dropLast)

/-- Insertion into a list sorted by bitmap height, tallest first (the
model's realisation of `sort_unstable_by(|a, b| b.height.cmp(&a.height))`;
the unstable sort's order among equal heights is unspecified in Rust and
fixed here by this insertion sort). -/
def insertDesc (x : Nat × GlyphCacheEntry) :
    List (Nat × GlyphCacheEntry) → List (Nat × GlyphCacheEntry)
  | [] => [x]
  | y :: rest =>
    if y.2.bmpSize.y ≤ x.2.bmpSize.y then x :: y :: rest else y :: insertDesc x rest

/-- Sort entries by bitmap height, descending. -/
def sortHeightDesc : List (Nat × GlyphCacheEntry) → List (Nat × GlyphCacheEntry)
  | [] => []
  | x :: rest => insertDesc x (sortHeightDesc rest)

/-- The `GlyphCache::internal_rearrange_append_glyph` (lines 421-473): try the
current atlases in order; else pop one cleared atlas from the previous
pool, push it and try it; if that also fails (or the pool is empty),
create a brand-new atlas, push it and try it; a failure on the freshly
created atlas is the "internal bug" error, reported as `none`. -/
def internalRearrangeAppendGlyph (key : Nat) (size : UVec2)
    (current pool : List GlyphCacheTexture) :
    Option Nat × List GlyphCacheTexture × List GlyphCacheTexture :=
  match tryAppendToExistingTexture current key size with
  | (some i, current') => (some i, current', pool)
  | (none, current') =>
    match vecPop pool with
    | some (p, pool') =>
      match p.tryAppendGlyph key size with
      | (Except.ok _, p') => (some current'.length, current' ++ [p'], pool')
      | (Except.error _, p') =>
        match GlyphCacheTexture.new.tryAppendGlyph key size with
        | (Except.ok _, n') => (some (current'.length + 1), current' ++ [p', n'], pool')
        | (Except.error _, n') => (none, current' ++ [p', n'], pool')
    | none =>
      match GlyphCacheTexture.new.tryAppendGlyph key size with
      | (Except.ok _, n') => (some current'.length, current' ++ [n'], pool)
      | (Except.error _, n') => (none, current' ++ [n'], pool)

/-- Result of the rebuild insertion loop of `prepare_for_draw`. -/
structure RearrangeResult where
  entries : List (Nat × GlyphCacheEntry)
  current : List GlyphCacheTexture
  pool : List GlyphCacheTexture
  ok : Bool
deriving DecidableEq, Repr

/-- The rebuild insertion loop (`prepare_for_draw` lines 350-361): place
every surviving entry in height order, recording the atlas index; on the
first failure the `?` aborts, keeping the placements made so far. -/
def rearrangeGo : List (Nat × GlyphCacheEntry) → List GlyphCacheTexture →
    List GlyphCacheTexture → RearrangeResult
  | [], current, pool => ⟨[], current, pool, true⟩
  | (k, e) :: rest, current, pool =>
    match internalRearrangeAppendGlyph k e.bmpSize current pool with
    | (some i, current', pool') =>
      let r := rearrangeGo rest current' pool'
      ⟨(k, { e with textureId := some i }) :: r.entries, r.current, r.pool, r.ok⟩
    | (none, current', pool') => ⟨(k, e) :: rest, current', pool', false⟩

/-- The `GlyphCacheTexture::revalidate` applied to every atlas (lines 369-374,
642-652): upload dirty bitmaps to the GPU (external) and clear the dirty
flag. -/
def revalidateAll (ts : List GlyphCacheTexture) : List GlyphCacheTexture :=
  ts.map (fun t => { t with invalidated := false })

/-- The `GlyphCache::prepare_for_draw` (lines 314-376).  Phase 1 is
`try_insert_pending`; on its failure the rebuild runs: clear every atlas,
reset every entry's atlas index, evict entries in neither liveness
generation, sort by height descending, re-insert through the cleared pool,
and keep at most one spare cleared atlas.  The `Bool` is `true` when the
call returns `Ok` (the only internal failure source is the
"could not append to new texture" path; GPU failures are external).  On
failure the state is as the Rust code leaves it after the early return. -/
def prepareForDraw (s : GlyphCache) : GlyphCache × Bool :=
  let p1 := tryInsertPending s.cacheEntries s.textures
  if p1.ok then
    ({ s with cacheEntries := p1.entries, textures := revalidateAll p1.textures }, true)
  else
    let cleared := p1.textures.map GlyphCacheTexture.clear
    let reset := p1.entries.map (fun ke => (ke.1, { ke.2 with textureId := none }))
    let retained := reset.filter (fun ke => s.lastFrame.elem ke.1 || s.thisFrame.elem ke.1)
    let sorted := sortHeightDesc retained
    let pool := cleared.map GlyphCacheTexture.clear
    let r := rearrangeGo sorted [] pool
    if r.ok then
      let spare := match vecPop r.pool with
        | some (t, _) => [t]
        | none => []
      ({ s with cacheEntries := r.entries, textures := revalidateAll (r.current ++ spare) }, true)
    else
      ({ s with cacheEntries := r.entries, textures := r.current }, false)

/-- The cache operations observable in a frame trace: `add` is
`add_to_cache` (with the external rasterization outcome for the key),
`newFrame` is `on_new_frame_start`, `prep` is `prepare_for_draw`. -/
inductive Event where
  | add (key : Nat) (raster : Option (UVec2 × (Int × Int)))
  | newFrame
  | prep
deriving DecidableEq, Repr

/-- One cache operation. -/
def stepEv (s : GlyphCache) : Event → GlyphCache
  | Event.add k r => addToCache s k r
  | Event.newFrame => onNewFrameStart s
  | Event.prep => (prepareForDraw s).1

/-- A sequence of cache operations. -/
def runEv (s : GlyphCache) (tr : List Event) : GlyphCache := tr.foldl stepEv s

/-- Whether an event is a frame boundary. -/
def Event.isNewFrame : Event → Bool
  | Event.newFrame => true
  | _ => false

/-- An event list that stays within one frame. -/
def noNewFrame (tr : List Event) : Prop := ∀ e ∈ tr, e.isNewFrame = false

instance (tr : List Event) : Decidable (noNewFrame tr) :=
  inferInstanceAs (Decidable (∀ e ∈ tr, e.isNewFrame = false))

/-- An atlas whose packer has no free region left (witness state for the
append-failure theorem). -/
def c6Atlas : GlyphCacheTexture := ⟨[], false, ⟨[]⟩, []⟩

/-- A 2×2 rasterization outcome used by the trace witnesses. -/
def wRaster : Option (UVec2 × (Int × Int)) := some (⟨2, 2⟩, (0, 0))

/-- Number of atlases holding at least one placed glyph. -/
def countNonEmpty (ts : List GlyphCacheTexture) : Nat :=
  (ts.filter (fun t => !t.entries.isEmpty)).length

/-- Witness state for the rebuild bound: one live unplaced entry and no
atlas, so phase 1 fails and the rebuild runs. -/
def c7State : GlyphCache := ⟨[0], [], [(0, ⟨⟨5, 5⟩, (0, 0), none⟩)], []⟩

/-- Witness state for entry removal: one entry whose key is in neither
liveness generation, so the next rebuild evicts it.  Also the witness state
for the panic clause of the draw-primitive lookup: its entry has
`texture_id = None`. -/
def c9State : GlyphCache := ⟨[], [], [(0, ⟨⟨5, 5⟩, (0, 0), none⟩)], []⟩

/-- The `f32::round` (round to the nearest integer, half away from zero), on
exact rationals. -/
def ratRound (q : ℚ) : ℤ := if 0 ≤ q then ⌊q + 1/2⌋ else ⌈q - 1/2⌉

/-- The `as i32` cast: truncation toward zero.  (The saturation at the
`i32` limits is not modelled; no input used below approaches them.) -/
def ratTrunc (q : ℚ) : ℤ := if 0 ≤ q then ⌊q⌋ else ⌈q⌉

/-- The `QuantizedDimension::from_pixels` (`src/font_cache.rs` lines 43-48):
`((10.0 * pixels) + 0.5) as i32`, the stored value being the number of
pixels multiplied by 10. -/
def QuantizedDimension.fromPixels (pixels : ℚ) : ℤ :=
  ratTrunc (10 * pixels + 1/2)

/-- The `QuantizedDimension::to_pixels` (lines 50-52). -/
def QuantizedDimension.toPixels (v : ℤ) : ℚ := (v : ℚ) / 10

/-- The per-axis subpixel offset computed for the cache key in
`GlyphCacheKey::from` (lines 72-80): the summed position minus its rounded
value, before quantization. -/
def subpixelOffset (glyphPos screenOff : ℚ) : ℚ :=
  let pos := glyphPos + screenOff
  pos - (ratRound pos : ℚ)

/-- An axis-aligned rectangle over exact rationals (`glam_rect::Rect` with
`f32` idealised as `ℚ`). -/
structure RectQ where
  topLeft : ℚ × ℚ
  bottomRight : ℚ × ℚ
deriving DecidableEq

/-- The `Rect::width`. -/
def RectQ.width (r : RectQ) : ℚ := r.bottomRight.1 - r.topLeft.1

/-- The `Rect::height`. -/
def RectQ.height (r : RectQ) : ℚ := r.bottomRight.2 - r.topLeft.2

/-- Modelled from the spec: `Rect::intersect` of the external `glam_rect`
crate, matching the repository's own tests in `src/shape.rs` (corner
coordinates clamp to the overlap; rectangles that merely touch have no
intersection). -/
def RectQ.intersect (r1 r2 : RectQ) : Option RectQ :=
  let tlx := max r1.topLeft.1 r2.topLeft.1
  let tly := max r1.topLeft.2 r2.topLeft.2
  let brx := min r1.bottomRight.1 r2.bottomRight.1
  let bry := min r1.bottomRight.2 r2.bottomRight.2
  if tlx < brx ∧ tly < bry then some ⟨(tlx, tly), (brx, bry)⟩ else none

/-- The crop adjustment of `get_renderer2d_actions` (`src/font_cache.rs`
lines 141-179): each texture-rectangle edge is shrunk by the same fraction
of the texture rectangle's extent that the crop clipped from the
corresponding screen-rectangle edge. -/
def cropAdjust (screen texture inter : RectQ) : RectQ :=
  let left_diff := (inter.topLeft.1 - screen.topLeft.1) / screen.width
  let right_diff := (screen.bottomRight.1 - inter.bottomRight.1) / screen.width
  let top_diff := (inter.topLeft.2 - screen.topLeft.2) / screen.height
  let bottom_diff := (screen.bottomRight.2 - inter.bottomRight.2) / screen.height
  ⟨(texture.topLeft.1 + texture.width * left_diff,
    texture.topLeft.2 + texture.height * top_diff),
   (texture.bottomRight.1 - texture.width * right_diff,
    texture.bottomRight.2 - texture.height * bottom_diff)⟩

/-- Observable outcome of `get_renderer2d_actions`: return without
emission, abort on an `unwrap` of `None`, or emit the two triangles
covering a screen rectangle with a texture-coordinate rectangle (the
vertex layout, colour and mix flags are passed through unchanged and
abstracted away). -/
inductive RAct where
  | silent
  | panic
  | emit (screen texture : RectQ)
deriving DecidableEq

/-- The screen rectangle computed at `src/font_cache.rs` lines 131-139:
`round(position + glyph position) + bounding_box_offset`, sized to the
placement's pixel dimensions. -/
def screenRegionOf (e : GlyphCacheEntry) (area : URect) (pos gpos : ℚ × ℚ) :
    RectQ :=
  let sx : Int := ratRound (pos.1 + gpos.1) + e.boundingBoxOffset.1
  let sy : Int := ratRound (pos.2 + gpos.2) + e.boundingBoxOffset.2
  ⟨((sx : ℚ), (sy : ℚ)),
   ((sx : ℚ) + (area.width : ℚ), (sy : ℚ) + (area.height : ℚ))⟩

/-- The `GlyphCache::get_renderer2d_actions` (`src/font_cache.rs` lines
101-243) for an already-computed cache key: a missing cache entry returns
silently; a present entry unwraps its atlas index, the atlas at that index
and the per-atlas placement (a `None` anywhere panics); the texture
rectangle is the placement divided by the atlas size; a supplied crop
window is intersected with the screen rectangle (an empty intersection
returns silently) and the texture rectangle is shrunk by `cropAdjust`. -/
def getActions (s : GlyphCache) (k : Nat) (pos gpos : ℚ × ℚ)
    (crop : Option RectQ) : RAct :=
  match lookupE k s.cacheEntries with
  | none => RAct.silent
  | some entry =>
    match entry.textureId with
    | none => RAct.panic
    | some tid =>
      match s.textures.get? tid with
      | none => RAct.panic
      | some tex =>
        match lookupE k tex.entries with
        | none => RAct.panic
        | some area =>
          let tsz : ℚ := (GlyphCacheTexture.SIZE : ℚ)
          let texture_region : RectQ :=
            ⟨((area.topLeft.x : ℚ) / tsz, (area.topLeft.y : ℚ) / tsz),
             ((area.bottomRight.x : ℚ) / tsz, (area.bottomRight.y : ℚ) / tsz)⟩
          let screen_region := screenRegionOf entry area pos gpos
          match crop with
          | none => RAct.emit screen_region texture_region
          | some cw =>
            match RectQ.intersect screen_region cw with
            | none => RAct.silent
            | some inter =>
              RAct.emit inter (cropAdjust screen_region texture_region inter)

/-- An atlas holding one placed glyph for key 0. -/
def c10Atlas : GlyphCacheTexture :=
  ⟨[(⟨1, 1⟩, ⟨5, 5⟩)], false, ⟨[⟨⟨0, 7⟩, ⟨7, 7⟩⟩]⟩, [(0, ⟨⟨1, 1⟩, ⟨6, 6⟩⟩)]⟩

/-- A cache with one fully placed entry for key 0 (witness state for the
crop-miss counterexample). -/
def c10State : GlyphCache :=
  ⟨[0], [], [(0, ⟨⟨5, 5⟩, (0, 0), some 0⟩)], [c10Atlas]⟩

/-- A crop window disjoint from the 5×5 screen rectangle at the origin. -/
def c10Crop : RectQ := ⟨(100, 100), (200, 200)⟩

/-- C1: the repository's own unit test `pack_test_fill_four_squares` expects
four successful 30×30 allocations from a fresh 64×64 packer followed by a
failure, but the code fails already on the second call: `try_allocate`
computes both leftover rectangles from the allocation's bottom-right corner
instead of the chosen region's, so after the first allocation the only free
region is the degenerate strip `(0,32)-(32,32)` of height 0 and nothing
else fits.  This theorem evaluates the code at the failing input: the first
call returns the expected `(1,1)-(31,31)` and the second call returns
`NotEnoughSpace` instead of the claimed `(33,1)-(63,31)`. -/
theorem c1_code_bug_eval :
    (tryAllocate (Packer.new 64 64) ⟨30, 30⟩).1 =
      Except.ok ⟨⟨1, 1⟩, ⟨31, 31⟩⟩ ∧
    (tryAllocate (Packer.new 64 64) ⟨30, 30⟩).2 =
      Packer.mk [⟨⟨0, 32⟩, ⟨32, 32⟩⟩] ∧
    (tryAllocate (tryAllocate (Packer.new 64 64) ⟨30, 30⟩).2 ⟨30, 30⟩).1 =
      Except.error PackerError.notEnoughSpace :=
  ⟨rfl, rfl, rfl⟩

/-- C2 counterexample: two candidate free regions with exactly equal width
and height (10×10 each, at `(0,0)` and `(20,0)`), both fitting the inflated
request 10×10.  The scan chooses index 1 — the latest-scanned region — not
the earliest as the claim states, and `try_allocate` splits that region
(the returned placement `(21,1)-(29,9)` is anchored at the second region's
corner). -/
theorem c2_counterexample :
    (c2Areas.get ⟨0, by decide⟩).width = (c2Areas.get ⟨1, by decide⟩).width ∧
    (c2Areas.get ⟨0, by decide⟩).height = (c2Areas.get ⟨1, by decide⟩).height ∧
    ¬(10 > (c2Areas.get ⟨0, by decide⟩).width ∨ 10 > (c2Areas.get ⟨0, by decide⟩).height) ∧
    ¬(10 > (c2Areas.get ⟨1, by decide⟩).width ∨ 10 > (c2Areas.get ⟨1, by decide⟩).height) ∧
    bestIndex c2Areas 10 10 = some (1, ⟨⟨20, 0⟩, ⟨30, 10⟩⟩) ∧
    (tryAllocate ⟨c2Areas⟩ ⟨8, 8⟩).1 = Except.ok ⟨⟨21, 1⟩, ⟨29, 9⟩⟩ := by
  refine ⟨rfl, rfl, by decide, by decide, rfl, rfl⟩

theorem scanFrom_append (width height : Nat) (best : Option (Nat × URect))
    (i : Nat) (rs : List URect) (r : URect) :
    scanFrom width height best i (rs ++ [r]) =
      updateBest width height (scanFrom width height best i rs) (i + rs.length) r := by
  induction rs generalizing best i with
  | nil => simp [scanFrom]
  | cons hd tl ih =>
    rw [List.cons_append]
    show scanFrom width height (updateBest width height best i hd) (i + 1) (tl ++ [r]) = _
    rw [ih, List.length_cons, show i + 1 + tl.length = i + (tl.length + 1) by omega]
    rfl

theorem updateBest_skip (w h i : Nat) (best : Option (Nat × URect)) (r : URect)
    (hs : w > r.width ∨ h > r.height) :
    updateBest w h best i r = best := by
  unfold updateBest
  rcases hs with hw | hh
  · simp [hw]
  · simp [hh]

theorem updateBest_none (w h i : Nat) (r : URect)
    (hf : ¬(w > r.width ∨ h > r.height)) :
    updateBest w h none i r = some (i, r) := by
  unfold updateBest
  push_neg at hf
  simp [Nat.not_lt.mpr hf.1, Nat.not_lt.mpr hf.2]

theorem updateBest_dominated (w h i j : Nat) (b r : URect)
    (hf : ¬(w > r.width ∨ h > r.height))
    (hd : b.width ≥ r.width ∧ b.height ≥ r.height) :
    updateBest w h (some (j, b)) i r = some (i, r) := by
  unfold updateBest
  push_neg at hf
  simp [Nat.not_lt.mpr hf.1, Nat.not_lt.mpr hf.2, hd.1, hd.2]

theorem updateBest_kept (w h i j : Nat) (b r : URect)
    (hnd : ¬(b.width ≥ r.width ∧ b.height ≥ r.height)) :
    updateBest w h (some (j, b)) i r = some (j, b) := by
  unfold updateBest
  by_cases hs : (decide (w > r.width) || decide (h > r.height)) = true
  · simp [hs]
  · have hc : ¬((decide (b.width ≥ r.width) && decide (b.height ≥ r.height)) = true) := by
      simpa [Bool.and_eq_true, decide_eq_true_eq] using hnd
    simp [hs, hc]

/-- C2 (amended): the chosen region results from the left-to-right scan in
which a candidate (a region fitting the inflated size in both dimensions)
replaces the running best exactly when there is no best yet or the best's
width and height are both ≥ the candidate's; consequently, when a later
candidate has exactly the same width and height as the current best, the
LATEST-scanned one becomes the chosen region.  Stated as a complete
characterisation of one scan step over an arbitrary region list. -/
theorem c2_scan_best (rs : List URect) (r : URect) (w h : Nat) :
    ((w > r.width ∨ h > r.height) →
      bestIndex (rs ++ [r]) w h = bestIndex rs w h) ∧
    (¬(w > r.width ∨ h > r.height) → bestIndex rs w h = none →
      bestIndex (rs ++ [r]) w h = some (rs.length, r)) ∧
    (∀ i b, ¬(w > r.width ∨ h > r.height) → bestIndex rs w h = some (i, b) →
      b.width ≥ r.width ∧ b.height ≥ r.height →
      bestIndex (rs ++ [r]) w h = some (rs.length, r)) ∧
    (∀ i b, bestIndex rs w h = some (i, b) →
      ¬(b.width ≥ r.width ∧ b.height ≥ r.height) →
      bestIndex (rs ++ [r]) w h = some (i, b)) := by
  have hstep := scanFrom_append w h none 0 rs r
  simp only [bestIndex] at hstep ⊢
  refine ⟨fun hskip => ?_, fun hfit hnone => ?_, fun i b hfit hsome hdom => ?_,
    fun i b hsome hnd => ?_⟩
  · rw [hstep, updateBest_skip _ _ _ _ _ hskip]
  · rw [hstep, hnone, updateBest_none _ _ _ _ hfit]
    simp
  · rw [hstep, hsome, updateBest_dominated _ _ _ _ _ _ hfit hdom]
    simp
  · rw [hstep, hsome, updateBest_kept _ _ _ _ _ _ hnd]

/-- Witness for C2 (amended): applying the tie case at the two equal 10×10
regions of the counterexample shows the later index is chosen. -/
theorem c2_scan_best_witness :
    bestIndex ([⟨⟨0, 0⟩, ⟨10, 10⟩⟩] ++ [⟨⟨20, 0⟩, ⟨30, 10⟩⟩]) 10 10 =
      some (1, ⟨⟨20, 0⟩, ⟨30, 10⟩⟩) :=
  (c2_scan_best [⟨⟨0, 0⟩, ⟨10, 10⟩⟩] ⟨⟨20, 0⟩, ⟨30, 10⟩⟩ 10 10).2.2.1
    0 ⟨⟨0, 0⟩, ⟨10, 10⟩⟩ (by decide) rfl (by decide)

theorem tryAllocate_error_eq (p : Packer) (size : UVec2) (err : PackerError)
    (h : (tryAllocate p size).1 = Except.error err) : (tryAllocate p size).2 = p := by
  unfold tryAllocate at h ⊢
  by_cases hz : (size.x == 0 || size.y == 0) = true
  · simp [hz] at h
  · simp only [hz, Bool.false_eq_true, if_false] at h ⊢
    cases hb : bestIndex p.areas (size.x + 2) (size.y + 2) with
    | none => simp [hb]
    | some ib => simp [hb] at h

theorem tryAppendGlyph_error_eq (t : GlyphCacheTexture) (key : Nat)
    (size : UVec2) (err : GlyphAppendError)
    (h : (t.tryAppendGlyph key size).1 = Except.error err) :
    (t.tryAppendGlyph key size).2 = t := by
  unfold GlyphCacheTexture.tryAppendGlyph at h ⊢
  cases ha : tryAllocate t.packer size with
  | mk res p' =>
    cases res with
    | error e =>
      have hp : p' = t.packer := by
        have := tryAllocate_error_eq t.packer size e (by rw [ha])
        rw [ha] at this
        exact this
      simp [ha, hp]
    | ok area => simp [ha] at h

/-- C6: when `try_append_glyph` fails with `NotEnoughSpace` (the packer had
no region fitting the inflated size), the atlas — its pixel bitmap, its
key → placement map, its dirty flag and its packer free-space state — is
left exactly as it was before the call, and the error is returned to the
caller. -/
theorem c6_append_failure_preserves_state (t : GlyphCacheTexture) (key : Nat)
    (size : UVec2) (err : GlyphAppendError)
    (h : (t.tryAppendGlyph key size).1 = Except.error err) :
    (t.tryAppendGlyph key size).2 = t :=
  tryAppendGlyph_error_eq t key size err h

/-- Witness for C6: appending a 5×5 glyph to an atlas with no free region
fails and leaves the atlas unchanged. -/
theorem c6_witness : (c6Atlas.tryAppendGlyph 0 ⟨5, 5⟩).2 = c6Atlas :=
  c6_append_failure_preserves_state c6Atlas 0 ⟨5, 5⟩
    GlyphAppendError.notEnoughSpace rfl

theorem prep_lastFrame (s : GlyphCache) :
    (stepEv s Event.prep).lastFrame = s.lastFrame := by
  show ((prepareForDraw s).1).lastFrame = s.lastFrame
  unfold prepareForDraw
  dsimp only
  split
  · rfl
  · split
    · rfl
    · rfl

theorem prep_thisFrame (s : GlyphCache) :
    (stepEv s Event.prep).thisFrame = s.thisFrame := by
  show ((prepareForDraw s).1).thisFrame = s.thisFrame
  unfold prepareForDraw
  dsimp only
  split
  · rfl
  · split
    · rfl
    · rfl

theorem step_nonNF_lastFrame (s : GlyphCache) (e : Event)
    (h : e.isNewFrame = false) : (stepEv s e).lastFrame = s.lastFrame := by
  cases e with
  | add k r => rfl
  | newFrame => exact absurd h (by simp [Event.isNewFrame])
  | prep => exact prep_lastFrame s

theorem step_nonNF_thisFrame_mem (s : GlyphCache) (e : Event) (k : Nat)
    (h : e.isNewFrame = false) (hk : k ∈ s.thisFrame) :
    k ∈ (stepEv s e).thisFrame := by
  cases e with
  | add k' r => exact List.mem_cons_of_mem _ hk
  | newFrame => exact absurd h (by simp [Event.isNewFrame])
  | prep => rw [prep_thisFrame]; exact hk

theorem run_nonNF_lastFrame (s : GlyphCache) (tr : List Event)
    (h : noNewFrame tr) : (runEv s tr).lastFrame = s.lastFrame := by
  induction tr generalizing s with
  | nil => rfl
  | cons e rest ih =>
    have he : e.isNewFrame = false := h e (List.mem_cons_self _ _)
    have hrest : noNewFrame rest := fun x hx => h x (List.mem_cons_of_mem _ hx)
    show (runEv (stepEv s e) rest).lastFrame = s.lastFrame
    rw [ih _ hrest, step_nonNF_lastFrame _ _ he]

theorem run_nonNF_thisFrame_mem (s : GlyphCache) (tr : List Event) (k : Nat)
    (h : noNewFrame tr) (hk : k ∈ s.thisFrame) :
    k ∈ (runEv s tr).thisFrame := by
  induction tr generalizing s with
  | nil => exact hk
  | cons e rest ih =>
    have he : e.isNewFrame = false := h e (List.mem_cons_self _ _)
    have hrest : noNewFrame rest := fun x hx => h x (List.mem_cons_of_mem _ hx)
    exact ih (stepEv s e) hrest (step_nonNF_thisFrame_mem _ _ _ he hk)

theorem keys_tryInsertPending (es : List (Nat × GlyphCacheEntry))
    (ts : List GlyphCacheTexture) :
    keysOf (tryInsertPending es ts).entries = keysOf es := by
  induction es generalizing ts with
  | nil => rfl
  | cons ke rest ih =>
    obtain ⟨k, e⟩ := ke
    cases hti : e.textureId with
    | some i =>
      simp only [tryInsertPending, hti, keysOf, List.map_cons]
      rw [show (List.map Prod.fst (tryInsertPending rest ts).entries : List Nat) =
        List.map Prod.fst rest from ih ts]
    | none =>
      cases hta : tryAppendToExistingTexture ts k e.bmpSize with
      | mk oi ts' =>
        cases oi with
        | some i =>
          simp only [tryInsertPending, hti, hta, keysOf, List.map_cons]
          rw [show (List.map Prod.fst (tryInsertPending rest ts').entries : List Nat) =
            List.map Prod.fst rest from ih ts']
        | none => simp [tryInsertPending, hti, hta, keysOf]

theorem keys_rearrangeGo (es : List (Nat × GlyphCacheEntry))
    (current pool : List GlyphCacheTexture) :
    keysOf (rearrangeGo es current pool).entries = keysOf es := by
  induction es generalizing current pool with
  | nil => rfl
  | cons ke rest ih =>
    obtain ⟨k, e⟩ := ke
    cases hir : internalRearrangeAppendGlyph k e.bmpSize current pool with
    | mk oi rest' =>
      obtain ⟨cur', pool'⟩ := rest'
      cases oi with
      | some i =>
        simp only [rearrangeGo, hir, keysOf, List.map_cons]
        rw [show (List.map Prod.fst (rearrangeGo rest cur' pool').entries : List Nat) =
          List.map Prod.fst rest from ih cur' pool']
      | none => simp [rearrangeGo, hir, keysOf]

theorem mem_insertDesc (x a : Nat × GlyphCacheEntry)
    (l : List (Nat × GlyphCacheEntry)) :
    a ∈ insertDesc x l ↔ a = x ∨ a ∈ l := by
  induction l with
  | nil => simp [insertDesc]
  | cons y rest ih =>
    unfold insertDesc
    split
    · simp
    · simp only [List.mem_cons, ih]
      tauto

theorem mem_sortHeightDesc (a : Nat × GlyphCacheEntry)
    (l : List (Nat × GlyphCacheEntry)) :
    a ∈ sortHeightDesc l ↔ a ∈ l := by
  induction l with
  | nil => simp [sortHeightDesc]
  | cons y rest ih =>
    simp only [sortHeightDesc, mem_insertDesc, List.mem_cons, ih]

theorem mem_keysOf {α : Type} (k : Nat) (l : List (Nat × α)) :
    k ∈ keysOf l ↔ ∃ e, (k, e) ∈ l := by
  constructor
  · intro h
    rcases List.mem_map.mp h with ⟨⟨k', e⟩, hm, hk⟩
    cases hk
    exact ⟨e, hm⟩
  · rintro ⟨e, hm⟩
    exact List.mem_map.mpr ⟨(k, e), hm, rfl⟩

theorem keys_rebuild_mem (es : List (Nat × GlyphCacheEntry)) (lf tf : List Nat)
    (k : Nat) (current pool : List GlyphCacheTexture)
    (hlive : (lf.elem k || tf.elem k) = true)
    (hmem : k ∈ keysOf es) :
    k ∈ keysOf (rearrangeGo
      (sortHeightDesc ((es.map (fun ke => (ke.1, { ke.2 with textureId := none }))).filter
        (fun ke => lf.elem ke.1 || tf.elem ke.1))) current pool).entries := by
  rw [keys_rearrangeGo]
  obtain ⟨e, he⟩ := (mem_keysOf k es).mp hmem
  refine (mem_keysOf _ _).mpr ⟨{ e with textureId := none }, ?_⟩
  refine (mem_sortHeightDesc _ _).mpr ?_
  refine List.mem_filter.mpr ⟨?_, ?_⟩
  · exact List.mem_map.mpr ⟨(k, e), he, rfl⟩
  · simpa using hlive

theorem prepMem_keep (s : GlyphCache) (k : Nat)
    (hlive : k ∈ s.lastFrame ∨ k ∈ s.thisFrame)
    (hmem : k ∈ keysOf s.cacheEntries) :
    k ∈ keysOf (stepEv s Event.prep).cacheEntries := by
  have hlb : (s.lastFrame.elem k || s.thisFrame.elem k) = true := by
    simp only [Bool.or_eq_true, List.elem_iff]
    exact hlive
  have base : k ∈ keysOf (tryInsertPending s.cacheEntries s.textures).entries := by
    rw [keys_tryInsertPending]
    exact hmem
  show k ∈ keysOf ((prepareForDraw s).1).cacheEntries
  unfold prepareForDraw
  dsimp only
  split
  · exact base
  · split
    · exact keys_rebuild_mem _ _ _ _ _ _ hlb base
    · exact keys_rebuild_mem _ _ _ _ _ _ hlb base

theorem runEv_append (s : GlyphCache) (l1 l2 : List Event) :
    runEv s (l1 ++ l2) = runEv (runEv s l1) l2 :=
  List.foldl_append _ _ _ _

/-- C3: a key marked used (via `add_to_cache`) during frame N and again
during frame N+1 is not removed by any `prepare_for_draw` (in particular by
its phase-2 eviction) occurring during frame N+1 or frame N+2, the frame
boundaries being the `on_new_frame_start` calls.  The trace is an arbitrary
prior history `s0`, then frame N containing the first `add` (`A`, `B`
boundary-free), a boundary, frame N+1 containing the second `add` (`C`,
`D` boundary-free), a boundary, and a boundary-free part `E` of frame N+2;
the first conjunct covers every `prepare_for_draw` event inside frame N+1
and the second every one inside frame N+2: in each case, if the key's
entry exists before the call it still exists after it. -/
theorem c3_two_generation_liveness (s0 : GlyphCache) (k : Nat)
    (rA rB : Option (UVec2 × (Int × Int))) (A B C D E : List Event)
    (hB : noNewFrame B) (hC : noNewFrame C) (hD : noNewFrame D)
    (hE : noNewFrame E) :
    (∀ X Y, C ++ Event.add k rB :: D = X ++ Event.prep :: Y →
      k ∈ keysOf (runEv (runEv s0 (A ++ Event.add k rA :: (B ++ [Event.newFrame]))) X).cacheEntries →
      k ∈ keysOf (stepEv (runEv (runEv s0 (A ++ Event.add k rA :: (B ++ [Event.newFrame]))) X) Event.prep).cacheEntries)
    ∧ (∀ X Y, E = X ++ Event.prep :: Y →
      k ∈ keysOf (runEv (runEv s0 (A ++ Event.add k rA :: (B ++ [Event.newFrame]))) (C ++ Event.add k rB :: (D ++ Event.newFrame :: X))).cacheEntries →
      k ∈ keysOf (stepEv (runEv (runEv s0 (A ++ Event.add k rA :: (B ++ [Event.newFrame]))) (C ++ Event.add k rB :: (D ++ Event.newFrame :: X))) Event.prep).cacheEntries) := by
  have hs1 : k ∈ (runEv s0 (A ++ Event.add k rA :: (B ++ [Event.newFrame]))).lastFrame := by
    rw [show A ++ Event.add k rA :: (B ++ [Event.newFrame]) =
      ((A ++ [Event.add k rA]) ++ B) ++ [Event.newFrame] by simp]
    rw [runEv_append, runEv_append]
    have h1 : k ∈ (runEv s0 (A ++ [Event.add k rA])).thisFrame := by
      rw [runEv_append]
      exact List.mem_cons_self _ _
    have h2 : k ∈ (runEv (runEv s0 (A ++ [Event.add k rA])) B).thisFrame :=
      run_nonNF_thisFrame_mem _ _ _ hB h1
    exact h2
  refine ⟨fun X Y hXY hmem => ?_, fun X Y hXY hmem => ?_⟩
  · have hX : noNewFrame X := by
      intro e he
      have hin : e ∈ C ++ Event.add k rB :: D := by
        rw [hXY]
        exact List.mem_append_left _ he
      rcases List.mem_append.mp hin with h | h
      · exact hC e h
      · rcases List.mem_cons.mp h with rfl | h
        · rfl
        · exact hD e h
    have hlast : k ∈ (runEv (runEv s0 (A ++ Event.add k rA :: (B ++ [Event.newFrame]))) X).lastFrame := by
      rw [run_nonNF_lastFrame _ _ hX]
      exact hs1
    exact prepMem_keep _ _ (Or.inl hlast) hmem
  · have hX : noNewFrame X := by
      intro e he
      exact hE e (by rw [hXY]; exact List.mem_append_left _ he)
    have hlast2 : k ∈ (runEv (runEv s0 (A ++ Event.add k rA :: (B ++ [Event.newFrame]))) (C ++ Event.add k rB :: (D ++ Event.newFrame :: X))).lastFrame := by
      rw [show C ++ Event.add k rB :: (D ++ Event.newFrame :: X) =
        (((C ++ [Event.add k rB]) ++ D) ++ [Event.newFrame]) ++ X by simp]
      rw [runEv_append, run_nonNF_lastFrame _ _ hX, runEv_append]
      have h1 : k ∈ (runEv (runEv s0 (A ++ Event.add k rA :: (B ++ [Event.newFrame]))) (C ++ [Event.add k rB])).thisFrame := by
        rw [runEv_append]
        exact List.mem_cons_self _ _
      have h2 := run_nonNF_thisFrame_mem _ D _ hD h1
      rw [runEv_append]
      exact h2
    exact prepMem_keep _ _ (Or.inl hlast2) hmem

/-- Witness for C3: a fresh cache, the key 0 added in frame N, a frame
boundary, the key added again, then a `prepare_for_draw` (which rebuilds,
since the entry is unplaced and there is no atlas): the entry survives. -/
theorem c3_witness :
    0 ∈ keysOf (stepEv (runEv (runEv GlyphCache.new
      ([] ++ Event.add 0 wRaster :: ([] ++ [Event.newFrame])))
      [Event.add 0 wRaster]) Event.prep).cacheEntries :=
  (c3_two_generation_liveness GlyphCache.new 0 wRaster wRaster [] [] []
      [Event.prep] [Event.prep] (by decide) (by decide) (by decide) (by decide)).1
    [Event.add 0 wRaster] [] rfl (by decide)

theorem tryAppendGlyph_ok_nonempty (t : GlyphCacheTexture) (key : Nat)
    (size : UVec2) (u : Unit) (t' : GlyphCacheTexture)
    (h : t.tryAppendGlyph key size = (Except.ok u, t')) : t'.entries ≠ [] := by
  unfold GlyphCacheTexture.tryAppendGlyph at h
  cases ha : tryAllocate t.packer size with
  | mk res p' =>
    cases res with
    | error e =>
      rw [ha] at h
      have h2 : ((Except.error GlyphAppendError.notEnoughSpace : Except GlyphAppendError Unit),
          { t with packer := p' }) = (Except.ok u, t') := h
      exact absurd (congrArg Prod.fst h2) (by simp)
    | ok area =>
      rw [ha] at h
      have h2 : ((Except.ok () : Except GlyphAppendError Unit),
          ({ blits := t.blits ++ (if size.x == 0 || size.y == 0 then [] else [(area.topLeft, size)]),
             invalidated := true, packer := p',
             entries := assocSet key area t.entries } : GlyphCacheTexture)) = (Except.ok u, t') := h
      have h3 := congrArg Prod.snd h2
      simp only at h3
      rw [← h3]
      simp [assocSet]

theorem scan_none_eq (ts : List GlyphCacheTexture) (key : Nat) (size : UVec2)
    (ts' : List GlyphCacheTexture)
    (h : tryAppendToExistingTexture ts key size = (none, ts')) : ts' = ts := by
  induction ts generalizing ts' with
  | nil =>
    have h2 : ((none : Option Nat), ([] : List GlyphCacheTexture)) = (none, ts') := h
    exact (congrArg Prod.snd h2).symm
  | cons t rest ih =>
    unfold tryAppendToExistingTexture at h
    cases ha : t.tryAppendGlyph key size with
    | mk res t1 =>
      cases res with
      | ok u =>
        rw [ha] at h
        have h2 : ((some 0 : Option Nat), t1 :: rest) = (none, ts') := h
        exact absurd (congrArg Prod.fst h2) (by simp)
      | error e =>
        rw [ha] at h
        cases hrest : tryAppendToExistingTexture rest key size with
        | mk oi rest' =>
          cases oi with
          | some i =>
            rw [hrest] at h
            have h2 : ((some (i + 1) : Option Nat), t1 :: rest') = (none, ts') := h
            exact absurd (congrArg Prod.fst h2) (by simp)
          | none =>
            rw [hrest] at h
            have h2 : ((none : Option Nat), t1 :: rest') = (none, ts') := h
            have ht1 : t1 = t := by
              have hh := tryAppendGlyph_error_eq t key size e (by rw [ha])
              rw [ha] at hh
              exact hh
            have h3 : t1 :: rest' = ts' := congrArg Prod.snd h2
            rw [← h3, ht1, ih rest' hrest]

theorem scan_some_nonempty (ts : List GlyphCacheTexture) (key : Nat)
    (size : UVec2) (i : Nat) (ts' : List GlyphCacheTexture)
    (hne : ∀ t ∈ ts, t.entries ≠ [])
    (h : tryAppendToExistingTexture ts key size = (some i, ts')) :
    ∀ t ∈ ts', t.entries ≠ [] := by
  induction ts generalizing i ts' with
  | nil =>
    have h2 : ((none : Option Nat), ([] : List GlyphCacheTexture)) = (some i, ts') := h
    exact absurd (congrArg Prod.fst h2) (by simp)
  | cons t rest ih =>
    unfold tryAppendToExistingTexture at h
    cases ha : t.tryAppendGlyph key size with
    | mk res t1 =>
      cases res with
      | ok u =>
        rw [ha] at h
        have h2 : ((some 0 : Option Nat), t1 :: rest) = (some i, ts') := h
        have h3 : t1 :: rest = ts' := congrArg Prod.snd h2
        rw [← h3]
        intro x hx
        rcases List.mem_cons.mp hx with rfl | hx
        · exact tryAppendGlyph_ok_nonempty t key size u x ha
        · exact hne x (List.mem_cons_of_mem _ hx)
      | error e =>
        rw [ha] at h
        have ht1 : t1 = t := by
          have hh := tryAppendGlyph_error_eq t key size e (by rw [ha])
          rw [ha] at hh
          exact hh
        cases hrest : tryAppendToExistingTexture rest key size with
        | mk oi rest' =>
          cases oi with
          | some j =>
            rw [hrest] at h
            have h2 : ((some (j + 1) : Option Nat), t1 :: rest') = (some i, ts') := h
            have h3 : t1 :: rest' = ts' := congrArg Prod.snd h2
            rw [← h3, ht1]
            intro x hx
            rcases List.mem_cons.mp hx with rfl | hx
            · exact hne x (List.mem_cons_self _ _)
            · exact ih j rest' (fun y hy => hne y (List.mem_cons_of_mem _ hy)) hrest x hx
          | none =>
            rw [hrest] at h
            have h2 : ((none : Option Nat), t1 :: rest') = (some i, ts') := h
            exact absurd (congrArg Prod.fst h2) (by simp)

theorem vecPop_decomp {α : Type} (l l' : List α) (x : α)
    (h : vecPop l = some (x, l')) : l = l' ++ [x] := by
  unfold vecPop at h
  cases hl : l.getLast? with
  | none =>
    rw [hl] at h
    exact absurd h (by simp)
  | some a =>
    rw [hl] at h
    have h2 : (a, l.dropLast) = (x, l') := by
      have := (Option.some.injEq _ _).mp h
      exact this
    have hx : a = x := congrArg Prod.fst h2
    have hl' : l.dropLast = l' := congrArg Prod.snd h2
    rw [← hl', ← hx]
    exact (List.dropLast_append_getLast? a hl).symm

theorem internal_some_inv (key : Nat) (size : UVec2)
    (current pool : List GlyphCacheTexture) (i : Nat)
    (cur' pool' : List GlyphCacheTexture)
    (hcur : ∀ t ∈ current, t.entries ≠ [])
    (hpool : ∀ t ∈ pool, t = GlyphCacheTexture.new)
    (h : internalRearrangeAppendGlyph key size current pool = (some i, cur', pool')) :
    (∀ t ∈ cur', t.entries ≠ []) ∧ (∀ t ∈ pool', t = GlyphCacheTexture.new) := by
  unfold internalRearrangeAppendGlyph at h
  cases hscan : tryAppendToExistingTexture current key size with
  | mk oi cur1 =>
    cases oi with
    | some j =>
      rw [hscan] at h
      dsimp only at h
      injection h with h1 h23
      injection h23 with h2 h3
      subst h2
      subst h3
      exact ⟨scan_some_nonempty current key size j cur1 hcur hscan, hpool⟩
    | none =>
      rw [hscan] at h
      dsimp only at h
      have hc1 : cur1 = current := scan_none_eq current key size cur1 hscan
      cases hpop : vecPop pool with
      | some ppool =>
        obtain ⟨p, pool2⟩ := ppool
        rw [hpop] at h
        dsimp only at h
        have hdec := vecPop_decomp pool pool2 p hpop
        have hp : p = GlyphCacheTexture.new :=
          hpool p (by rw [hdec]; exact List.mem_append_right _ (List.mem_singleton_self _))
        have hpool2 : ∀ t ∈ pool2, t = GlyphCacheTexture.new :=
          fun t ht => hpool t (by rw [hdec]; exact List.mem_append_left _ ht)
        rw [hp] at h
        cases hap : GlyphCacheTexture.new.tryAppendGlyph key size with
        | mk res p1 =>
          cases res with
          | ok u =>
            rw [hap] at h
            dsimp only at h
            injection h with h1 h23
            injection h23 with h2 h3
            subst h2
            subst h3
            refine ⟨?_, hpool2⟩
            intro x hx
            rcases List.mem_append.mp hx with hx | hx
            · rw [hc1] at hx
              exact hcur x hx
            · rcases List.mem_singleton.mp hx with rfl
              exact tryAppendGlyph_ok_nonempty _ key size u x hap
          | error e =>
            rw [hap] at h
            dsimp only at h
            injection h with h1 h23
            exact absurd h1 (by simp)
      | none =>
        rw [hpop] at h
        dsimp only at h
        cases hap : GlyphCacheTexture.new.tryAppendGlyph key size with
        | mk res n1 =>
          cases res with
          | ok u =>
            rw [hap] at h
            dsimp only at h
            injection h with h1 h23
            injection h23 with h2 h3
            subst h2
            subst h3
            refine ⟨?_, hpool⟩
            intro x hx
            rcases List.mem_append.mp hx with hx | hx
            · rw [hc1] at hx
              exact hcur x hx
            · rcases List.mem_singleton.mp hx with rfl
              exact tryAppendGlyph_ok_nonempty _ key size u x hap
          | error e =>
            rw [hap] at h
            dsimp only at h
            injection h with h1 h23
            exact absurd h1 (by simp)

theorem rearrange_inv (es : List (Nat × GlyphCacheEntry))
    (current pool : List GlyphCacheTexture)
    (hcur : ∀ t ∈ current, t.entries ≠ [])
    (hpool : ∀ t ∈ pool, t = GlyphCacheTexture.new)
    (hok : (rearrangeGo es current pool).ok = true) :
    ∀ t ∈ (rearrangeGo es current pool).current, t.entries ≠ [] := by
  induction es generalizing current pool with
  | nil => exact hcur
  | cons ke rest ih =>
    obtain ⟨k, e⟩ := ke
    unfold rearrangeGo at hok ⊢
    cases hir : internalRearrangeAppendGlyph k e.bmpSize current pool with
    | mk oi rest2 =>
      obtain ⟨cur1, pool1⟩ := rest2
      cases oi with
      | some i =>
        rw [hir] at hok
        dsimp only at hok ⊢
        have hinv := internal_some_inv k e.bmpSize current pool i cur1 pool1 hcur hpool hir
        exact ih cur1 pool1 hinv.1 hinv.2 hok
      | none =>
        rw [hir] at hok
        dsimp only at hok
        exact absurd hok (by simp)

theorem length_revalidateAll (ts : List GlyphCacheTexture) :
    (revalidateAll ts).length = ts.length :=
  List.length_map _ _

theorem countNonEmpty_revalidateAll (ts : List GlyphCacheTexture) :
    countNonEmpty (revalidateAll ts) = countNonEmpty ts := by
  induction ts with
  | nil => rfl
  | cons t rest ih =>
    unfold countNonEmpty revalidateAll at ih ⊢
    simp only [List.map_cons, List.filter_cons]
    by_cases hb : (!t.entries.isEmpty) = true
    · have hb2 : (!({ t with invalidated := false } : GlyphCacheTexture).entries.isEmpty) = true := hb
      rw [if_pos hb2, if_pos hb]
      simp only [List.length_cons]
      rw [ih]
    · have hb2 : ¬((!({ t with invalidated := false } : GlyphCacheTexture).entries.isEmpty) = true) := hb
      rw [if_neg hb2, if_neg hb]
      exact ih

theorem countNonEmpty_append (l1 l2 : List GlyphCacheTexture) :
    countNonEmpty (l1 ++ l2) = countNonEmpty l1 + countNonEmpty l2 := by
  unfold countNonEmpty
  rw [List.filter_append, List.length_append]

theorem countNonEmpty_all (ts : List GlyphCacheTexture)
    (h : ∀ t ∈ ts, t.entries ≠ []) : countNonEmpty ts = ts.length := by
  unfold countNonEmpty
  rw [List.filter_eq_self.mpr]
  intro t ht
  have := h t ht
  simp only [Bool.not_eq_true']
  rw [← Bool.not_eq_true]
  intro hemp
  exact this (List.isEmpty_iff.mp hemp)

theorem rebuild_bound_generic (es : List (Nat × GlyphCacheEntry))
    (pool0 : List GlyphCacheTexture)
    (hpool : ∀ t ∈ pool0, t = GlyphCacheTexture.new)
    (hr : (rearrangeGo es [] pool0).ok = true) :
    (revalidateAll ((rearrangeGo es [] pool0).current ++
      (match vecPop (rearrangeGo es [] pool0).pool with
        | some (t, _) => [t]
        | none => []))).length ≤
    countNonEmpty (revalidateAll ((rearrangeGo es [] pool0).current ++
      (match vecPop (rearrangeGo es [] pool0).pool with
        | some (t, _) => [t]
        | none => []))) + 1 := by
  have hnon : ∀ t ∈ (rearrangeGo es [] pool0).current, t.entries ≠ [] :=
    rearrange_inv es [] pool0 (fun t ht => absurd ht (List.not_mem_nil t)) hpool hr
  have hcnt : countNonEmpty (rearrangeGo es [] pool0).current =
      (rearrangeGo es [] pool0).current.length := countNonEmpty_all _ hnon
  rw [length_revalidateAll, countNonEmpty_revalidateAll]
  cases hvp : vecPop (rearrangeGo es [] pool0).pool with
  | none =>
    dsimp only
    rw [countNonEmpty_append, List.length_append]
    have hz : countNonEmpty ([] : List GlyphCacheTexture) = 0 := rfl
    have hzl : ([] : List GlyphCacheTexture).length = 0 := rfl
    omega
  | some tpair =>
    obtain ⟨t0, prest⟩ := tpair
    dsimp only
    rw [countNonEmpty_append, List.length_append]
    have h1 : ([t0] : List GlyphCacheTexture).length = 1 := rfl
    omega

/-- C7: whenever phase 1 fails (so `prepare_for_draw` takes the rebuild
path) and the call returns successfully, the resulting atlas list contains
at most one atlas holding no glyph (the single spare kept from the cleared
pool), so its length is at most the number of atlases holding at least one
placed glyph plus one. -/
theorem c7_rebuild_atlas_bound (s s' : GlyphCache)
    (hfail : (tryInsertPending s.cacheEntries s.textures).ok = false)
    (hdone : prepareForDraw s = (s', true)) :
    s'.textures.length ≤ countNonEmpty s'.textures + 1 := by
  unfold prepareForDraw at hdone
  dsimp only at hdone
  rw [if_neg (by simp [hfail])] at hdone
  by_cases hr : (rearrangeGo
      (sortHeightDesc (((tryInsertPending s.cacheEntries s.textures).entries.map
        (fun ke => (ke.1, { ke.2 with textureId := none }))).filter
        (fun ke => s.lastFrame.elem ke.1 || s.thisFrame.elem ke.1)))
      []
      (((tryInsertPending s.cacheEntries s.textures).textures.map
        GlyphCacheTexture.clear).map GlyphCacheTexture.clear)).ok = true
  · rw [if_pos hr] at hdone
    injection hdone with h1 h2
    rw [← h1]
    dsimp only
    refine rebuild_bound_generic _ _ ?_ hr
    intro t ht
    rcases List.mem_map.mp ht with ⟨x, _, rfl⟩
    rfl
  · rw [if_neg hr] at hdone
    injection hdone with h1 h2
    exact absurd h2 (by simp)

/-- Witness for C7: a cache with one live unplaced 5×5 entry and no atlas;
phase 1 fails, the rebuild allocates one atlas, and the bound holds. -/
theorem c7_witness :
    (prepareForDraw c7State).1.textures.length ≤
      countNonEmpty (prepareForDraw c7State).1.textures + 1 :=
  c7_rebuild_atlas_bound c7State (prepareForDraw c7State).1 (by decide)
    (by decide)

theorem tryInsertPending_fieldPres (es : List (Nat × GlyphCacheEntry))
    (ts : List GlyphCacheTexture) (k : Nat) (e : GlyphCacheEntry)
    (hmem : (k, e) ∈ (tryInsertPending es ts).entries) :
    ∃ e0, (k, e0) ∈ es ∧ e.bmpSize = e0.bmpSize ∧
      e.boundingBoxOffset = e0.boundingBoxOffset := by
  induction es generalizing ts with
  | nil => exact absurd hmem (List.not_mem_nil _)
  | cons ke rest ih =>
    obtain ⟨k1, e1⟩ := ke
    unfold tryInsertPending at hmem
    cases hti : e1.textureId with
    | some i =>
      rw [hti] at hmem
      dsimp only at hmem
      rcases List.mem_cons.mp hmem with heq | hmem
      · injection heq with hk he
        subst hk
        subst he
        exact ⟨e, List.mem_cons_self _ _, rfl, rfl⟩
      · obtain ⟨e0, h0, hb, ho⟩ := ih ts hmem
        exact ⟨e0, List.mem_cons_of_mem _ h0, hb, ho⟩
    | none =>
      rw [hti] at hmem
      dsimp only at hmem
      cases hta : tryAppendToExistingTexture ts k1 e1.bmpSize with
      | mk oi ts' =>
        cases oi with
        | some i =>
          rw [hta] at hmem
          dsimp only at hmem
          rcases List.mem_cons.mp hmem with heq | hmem
          · injection heq with hk he
            subst hk
            subst he
            exact ⟨e1, List.mem_cons_self _ _, rfl, rfl⟩
          · obtain ⟨e0, h0, hb, ho⟩ := ih ts' hmem
            exact ⟨e0, List.mem_cons_of_mem _ h0, hb, ho⟩
        | none =>
          rw [hta] at hmem
          dsimp only at hmem
          rcases List.mem_cons.mp hmem with heq | hmem
          · injection heq with hk he
            subst hk
            subst he
            exact ⟨e, List.mem_cons_self _ _, rfl, rfl⟩
          · exact ⟨e, List.mem_cons_of_mem _ hmem, rfl, rfl⟩

theorem rearrangeGo_fieldPres (es : List (Nat × GlyphCacheEntry))
    (current pool : List GlyphCacheTexture) (k : Nat) (e : GlyphCacheEntry)
    (hmem : (k, e) ∈ (rearrangeGo es current pool).entries) :
    ∃ e0, (k, e0) ∈ es ∧ e.bmpSize = e0.bmpSize ∧
      e.boundingBoxOffset = e0.boundingBoxOffset := by
  induction es generalizing current pool with
  | nil => exact absurd hmem (List.not_mem_nil _)
  | cons ke rest ih =>
    obtain ⟨k1, e1⟩ := ke
    unfold rearrangeGo at hmem
    cases hir : internalRearrangeAppendGlyph k1 e1.bmpSize current pool with
    | mk oi rest2 =>
      obtain ⟨cur1, pool1⟩ := rest2
      cases oi with
      | some i =>
        rw [hir] at hmem
        dsimp only at hmem
        rcases List.mem_cons.mp hmem with heq | hmem
        · injection heq with hk he
          subst hk
          subst he
          exact ⟨e1, List.mem_cons_self _ _, rfl, rfl⟩
        · obtain ⟨e0, h0, hb, ho⟩ := ih cur1 pool1 hmem
          exact ⟨e0, List.mem_cons_of_mem _ h0, hb, ho⟩
      | none =>
        rw [hir] at hmem
        dsimp only at hmem
        rcases List.mem_cons.mp hmem with heq | hmem
        · injection heq with hk he
          subst hk
          subst he
          exact ⟨e, List.mem_cons_self _ _, rfl, rfl⟩
        · exact ⟨e, List.mem_cons_of_mem _ hmem, rfl, rfl⟩

theorem prep_fieldPres (s : GlyphCache) (k : Nat) (e : GlyphCacheEntry)
    (hmem : (k, e) ∈ (stepEv s Event.prep).cacheEntries) :
    ∃ e0, (k, e0) ∈ s.cacheEntries ∧ e.bmpSize = e0.bmpSize ∧
      e.boundingBoxOffset = e0.boundingBoxOffset := by
  have main : ∀ l1 : List (Nat × GlyphCacheEntry),
      (∀ k1 e1, (k1, e1) ∈ l1 → ∃ e0, (k1, e0) ∈ s.cacheEntries ∧
        e1.bmpSize = e0.bmpSize ∧ e1.boundingBoxOffset = e0.boundingBoxOffset) →
      ∀ cur pool, (k, e) ∈ (rearrangeGo (sortHeightDesc (l1.filter
        (fun ke => s.lastFrame.elem ke.1 || s.thisFrame.elem ke.1))) cur pool).entries →
      ∃ e0, (k, e0) ∈ s.cacheEntries ∧ e.bmpSize = e0.bmpSize ∧
        e.boundingBoxOffset = e0.boundingBoxOffset := by
    intro l1 hl1 cur pool hm
    obtain ⟨e1, h1, hb1, ho1⟩ := rearrangeGo_fieldPres _ cur pool k e hm
    have h2 : (k, e1) ∈ l1.filter
        (fun ke => s.lastFrame.elem ke.1 || s.thisFrame.elem ke.1) :=
      (mem_sortHeightDesc _ _).mp h1
    have h3 : (k, e1) ∈ l1 := (List.mem_filter.mp h2).1
    obtain ⟨e0, h0, hb0, ho0⟩ := hl1 k e1 h3
    exact ⟨e0, h0, hb1.trans hb0, ho1.trans ho0⟩
  have hmem2 : (k, e) ∈ ((prepareForDraw s).1).cacheEntries := hmem
  unfold prepareForDraw at hmem2
  dsimp only at hmem2
  split at hmem2
  · exact tryInsertPending_fieldPres _ _ _ _ hmem2
  · have hreset : ∀ k1 e1,
        (k1, e1) ∈ (tryInsertPending s.cacheEntries s.textures).entries.map
          (fun ke => (ke.1, { ke.2 with textureId := none })) →
        ∃ e0, (k1, e0) ∈ s.cacheEntries ∧ e1.bmpSize = e0.bmpSize ∧
          e1.boundingBoxOffset = e0.boundingBoxOffset := by
      intro k1 e1 hm1
      rcases List.mem_map.mp hm1 with ⟨⟨k2, e2⟩, hm2, heq⟩
      injection heq with hk he
      subst hk
      subst he
      obtain ⟨e0, h0, hb, ho⟩ := tryInsertPending_fieldPres _ _ _ _ hm2
      exact ⟨e0, h0, hb, ho⟩
    split at hmem2
    · exact main _ hreset _ _ hmem2
    · exact main _ hreset _ _ hmem2

theorem addToCache_keys_mono (s : GlyphCache) (key k : Nat)
    (raster : Option (UVec2 × (Int × Int)))
    (hk : k ∈ keysOf s.cacheEntries) :
    k ∈ keysOf (addToCache s key raster).cacheEntries := by
  unfold addToCache
  dsimp only
  cases hl : lookupE key s.cacheEntries with
  | some e1 => exact hk
  | none =>
    cases raster with
    | none => exact hk
    | some szoff =>
      obtain ⟨sz, off⟩ := szoff
      exact List.mem_cons_of_mem _ hk

/-- C9 counterexample: a fresh cache, one `add_to_cache` creating the entry
for key 0 with `texture_id = None`, then one `prepare_for_draw`: the
entry's optional atlas index changes from `None` to `Some 0`, so a cache
entry is mutated after creation, contradicting the claim that all of its
fields (including the optional atlas index) stay as first stored. -/
theorem c9_counterexample :
    lookupE 0 (runEv GlyphCache.new [Event.add 0 wRaster]).cacheEntries =
      some ⟨⟨2, 2⟩, (0, 0), none⟩ ∧
    lookupE 0 (stepEv (runEv GlyphCache.new [Event.add 0 wRaster])
      Event.prep).cacheEntries = some ⟨⟨2, 2⟩, (0, 0), some 0⟩ ∧
    (some 0 : Option Nat) ≠ none := by
  refine ⟨by decide, by decide, by decide⟩

/-- C9 (amended): an entry is created only by the first `add_to_cache`
request for its key (stored with `texture_id = None` and the rasterized
bitmap and bounding-box offset of that request); its bitmap and
bounding-box offset are never mutated while the entry persists — but its
optional atlas index IS rewritten by placement and rebuild; and an entry is
removed only by a `prepare_for_draw` whose rebuild evicts keys present in
neither `last_frame` nor `this_frame`.  Stated over every single cache
operation from every state. -/
theorem c9_entry_lifecycle (s : GlyphCache) (ev : Event) :
    (∀ k e, (k, e) ∈ (stepEv s ev).cacheEntries →
      (∃ e0, (k, e0) ∈ s.cacheEntries ∧ e.bmpSize = e0.bmpSize ∧
        e.boundingBoxOffset = e0.boundingBoxOffset)
      ∨ (ev = Event.add k (some (e.bmpSize, e.boundingBoxOffset)) ∧
         e.textureId = none ∧ lookupE k s.cacheEntries = none))
    ∧ (∀ k, k ∈ keysOf s.cacheEntries → k ∉ keysOf (stepEv s ev).cacheEntries →
      ev = Event.prep ∧ k ∉ s.lastFrame ∧ k ∉ s.thisFrame) := by
  constructor
  · intro k e hmem
    cases ev with
    | add key r =>
      have hmem2 : (k, e) ∈ (addToCache s key r).cacheEntries := hmem
      unfold addToCache at hmem2
      dsimp only at hmem2
      cases hl : lookupE key s.cacheEntries with
      | some e1 =>
        rw [hl] at hmem2
        exact Or.inl ⟨e, hmem2, rfl, rfl⟩
      | none =>
        rw [hl] at hmem2
        cases r with
        | none => exact Or.inl ⟨e, hmem2, rfl, rfl⟩
        | some szoff =>
          obtain ⟨sz, off⟩ := szoff
          dsimp only at hmem2
          rcases List.mem_cons.mp hmem2 with heq | hmem2
          · injection heq with hk he
            subst hk
            subst he
            exact Or.inr ⟨rfl, rfl, hl⟩
          · exact Or.inl ⟨e, hmem2, rfl, rfl⟩
    | newFrame => exact Or.inl ⟨e, hmem, rfl, rfl⟩
    | prep => exact Or.inl (prep_fieldPres s k e hmem)
  · intro k hk hno
    cases ev with
    | add key r => exact absurd (addToCache_keys_mono s key k r hk) hno
    | newFrame => exact absurd hk hno
    | prep =>
      refine ⟨rfl, fun hin => ?_, fun hin => ?_⟩
      · exact hno (prepMem_keep s k (Or.inl hin) hk)
      · exact hno (prepMem_keep s k (Or.inr hin) hk)

/-- Witness for C9 (amended): the removal clause applied to a cache holding
one entry for key 0 that is in neither liveness generation; the next
`prepare_for_draw` evicts it, and the theorem reports the eviction
conditions. -/
theorem c9_witness :
    Event.prep = Event.prep ∧ 0 ∉ c9State.lastFrame ∧ 0 ∉ c9State.thisFrame :=
  (c9_entry_lifecycle c9State Event.prep).2 0 (by decide) (by decide)

/-- C4: the quantizer does not round-trip within 0.05 pixels for negative
inputs, because `((10.0 * pixels) + 0.5) as i32` truncates toward zero (the
`// Round to nearest` comment and the spec's round-to-nearest requirement
for negative offsets are not honoured).  At `p = -0.375` (exactly
representable in `f32`, with every intermediate `f32` operation exact) the
quantized value is `-3`, which maps back to `-0.3`: an error of `0.075 >
0.05`.  (Round-to-nearest would give `-4`, i.e. `-0.4`, an error of
`0.025`.) -/
theorem c4_quantize_roundtrip_violation :
    QuantizedDimension.fromPixels (-(3/8)) = -3 ∧
    |QuantizedDimension.toPixels (QuantizedDimension.fromPixels (-(3/8))) -
      (-(3/8) : ℚ)| = 3/40 ∧
    ¬(|QuantizedDimension.toPixels (QuantizedDimension.fromPixels (-(3/8))) -
      (-(3/8) : ℚ)| ≤ 1/20) := by
  have habs : |(3/40 : ℚ)| = 3/40 := abs_of_pos (by norm_num)
  have h : QuantizedDimension.fromPixels (-(3/8)) = -3 := by
    unfold QuantizedDimension.fromPixels ratTrunc
    rw [if_neg (by norm_num), show (10 * (-(3/8)) + 1/2 : ℚ) = -(13/4) by norm_num]
    rw [Int.ceil_eq_iff]
    norm_num
  refine ⟨h, ?_, ?_⟩
  · rw [h]
    unfold QuantizedDimension.toPixels
    rw [show ((-3 : ℤ) : ℚ) / 10 - (-(3/8) : ℚ) = 3/40 by norm_num]
    exact habs
  · rw [h]
    unfold QuantizedDimension.toPixels
    rw [show ((-3 : ℤ) : ℚ) / 10 - (-(3/8) : ℚ) = 3/40 by norm_num, habs]
    norm_num

/-- C5 counterexample: at glyph position `-0.5` with screen offset `0`
(both exact in `f32`), `x - x.round()` is `-0.5 - (-1) = +0.5` because
`f32::round` rounds half away from zero, so the subpixel offset is NOT in
the half-open range `[-0.5, 0.5)`. -/
theorem c5_counterexample :
    subpixelOffset (-(1/2)) 0 = 1/2 ∧ ¬(subpixelOffset (-(1/2)) 0 < 1/2) := by
  have h : subpixelOffset (-(1/2)) 0 = 1/2 := by
    unfold subpixelOffset ratRound
    dsimp only
    rw [show (-(1/2) + 0 : ℚ) = -(1/2) by norm_num]
    rw [if_neg (by norm_num)]
    rw [show (-(1/2) - 1/2 : ℚ) = ((-1 : ℤ) : ℚ) by norm_num, Int.ceil_intCast]
    norm_num
  exact ⟨h, by rw [h]; exact lt_irrefl _⟩

/-- C5 (amended): for every glyph position and screen offset, the per-axis
subpixel offset computed for the cache key lies in the CLOSED interval
`[-0.5, 0.5]`; the right endpoint is attained exactly at negative
half-integer positions (see the counterexample), so the claimed half-open
range must be widened to the closed one. -/
theorem c5_offset_closed_range (glyphPos screenOff : ℚ) :
    -(1/2) ≤ subpixelOffset glyphPos screenOff ∧
    subpixelOffset glyphPos screenOff ≤ 1/2 := by
  unfold subpixelOffset ratRound
  dsimp only
  split
  next h =>
    constructor
    · have h1 : (⌊glyphPos + screenOff + 1/2⌋ : ℚ) ≤ glyphPos + screenOff + 1/2 :=
        Int.floor_le _
      linarith
    · have h2 : glyphPos + screenOff + 1/2 < ⌊glyphPos + screenOff + 1/2⌋ + 1 :=
        Int.lt_floor_add_one _
      linarith
  next h =>
    constructor
    · have h2 : (⌈glyphPos + screenOff - 1/2⌉ : ℚ) <
          (glyphPos + screenOff - 1/2) + 1 := Int.ceil_lt_add_one _
      linarith
    · have h1 : glyphPos + screenOff - 1/2 ≤ ⌈glyphPos + screenOff - 1/2⌉ :=
        Int.le_ceil _
      linarith

/-- C8: with a screen rectangle `(0,0)-(20,20)` whose texture-coordinate
rectangle is `(0,0)-(1,1)` and the crop window `(5,0)-(20,20)`, the crop
intersection is `(5,0)-(20,20)` and the emitted texture rectangle's left
edge is `0.25` (the same quarter that the crop clipped from the screen
rectangle's left edge) while its right edge stays `1.0` — the computation
performed by `get_renderer2d_actions` via `cropAdjust`. -/
theorem c8_crop_fractions :
    RectQ.intersect ⟨(0, 0), (20, 20)⟩ ⟨(5, 0), (20, 20)⟩ =
      some ⟨(5, 0), (20, 20)⟩ ∧
    (cropAdjust ⟨(0, 0), (20, 20)⟩ ⟨(0, 0), (1, 1)⟩
      ⟨(5, 0), (20, 20)⟩).topLeft.1 = 1/4 ∧
    (cropAdjust ⟨(0, 0), (20, 20)⟩ ⟨(0, 0), (1, 1)⟩
      ⟨(5, 0), (20, 20)⟩).bottomRight.1 = 1 := by
  refine ⟨?_, ?_, ?_⟩
  · unfold RectQ.intersect
    norm_num
  · unfold cropAdjust RectQ.width RectQ.height
    norm_num
  · unfold cropAdjust RectQ.width RectQ.height
    norm_num

/-- C10 counterexample: a cache whose entry for key 0 is fully placed in an
atlas, queried with a crop window disjoint from the glyph's screen
rectangle: `get_renderer2d_actions` returns silently even though a cache
entry exists, so "returns silently only when no cache entry exists" is
false. -/
theorem c10_counterexample :
    getActions c10State 0 (0, 0) (0, 0) (some c10Crop) = RAct.silent ∧
    lookupE 0 c10State.cacheEntries ≠ none := by
  have hsr : screenRegionOf ⟨⟨5, 5⟩, (0, 0), some 0⟩ ⟨⟨1, 1⟩, ⟨6, 6⟩⟩
      ((0 : ℚ), (0 : ℚ)) ((0 : ℚ), (0 : ℚ)) = ⟨(0, 0), (5, 5)⟩ := by
    unfold screenRegionOf ratRound URect.width URect.height
    have hfl : ⌊((0 : ℚ) + 0 + 1/2)⌋ = 0 := by
      rw [show ((0 : ℚ) + 0 + 1/2) = 1/2 by norm_num]
      rw [Int.floor_eq_iff]
      norm_num
    rw [if_pos (by norm_num)]
    rw [hfl]
    norm_num
  have hint : RectQ.intersect ⟨((0 : ℚ), (0 : ℚ)), ((5 : ℚ), (5 : ℚ))⟩ c10Crop = none := by
    unfold RectQ.intersect c10Crop
    rw [if_neg]
    intro hc
    have h1 := hc.1
    rw [show max (0 : ℚ) 100 = 100 from max_eq_right (by norm_num),
      show min (5 : ℚ) 200 = 5 from min_eq_left (by norm_num)] at h1
    norm_num at h1
  constructor
  · unfold getActions
    rw [show lookupE 0 c10State.cacheEntries = some ⟨⟨5, 5⟩, (0, 0), some 0⟩ from rfl]
    dsimp only
    rw [show c10State.textures.get? 0 = some c10Atlas from rfl]
    dsimp only
    rw [show lookupE 0 c10Atlas.entries = some ⟨⟨1, 1⟩, ⟨6, 6⟩⟩ from rfl]
    dsimp only
    rw [hsr, hint]
  · intro hc
    rw [show lookupE 0 c10State.cacheEntries = some ⟨⟨5, 5⟩, (0, 0), some 0⟩ from rfl] at hc
    exact Option.noConfusion hc

/-- C10 (amended): `get_renderer2d_actions` returns silently exactly when
no cache entry exists for the computed key or when the supplied crop
window has empty intersection with the glyph's screen rectangle; when an
entry exists but its `texture_id` is `None` (rasterized this frame but not
yet placed by `prepare_for_draw`), or its atlas index is out of range, or
the per-atlas placement is missing, the call panics on an `unwrap` — so
calling it for a newly marked visible glyph before `prepare_for_draw`
aborts the program. -/
theorem c10_lookup_panic (s : GlyphCache) (k : Nat) (pos gpos : ℚ × ℚ)
    (crop : Option RectQ) :
    (lookupE k s.cacheEntries = none →
      getActions s k pos gpos crop = RAct.silent)
    ∧ (∀ e, lookupE k s.cacheEntries = some e → e.textureId = none →
        getActions s k pos gpos crop = RAct.panic)
    ∧ (∀ e i, lookupE k s.cacheEntries = some e → e.textureId = some i →
        s.textures.get? i = none → getActions s k pos gpos crop = RAct.panic)
    ∧ (∀ e i t, lookupE k s.cacheEntries = some e → e.textureId = some i →
        s.textures.get? i = some t → lookupE k t.entries = none →
        getActions s k pos gpos crop = RAct.panic)
    ∧ (getActions s k pos gpos crop = RAct.silent →
        lookupE k s.cacheEntries = none ∨
        ∃ cw e i t area, crop = some cw ∧ lookupE k s.cacheEntries = some e ∧
          e.textureId = some i ∧ s.textures.get? i = some t ∧
          lookupE k t.entries = some area ∧
          RectQ.intersect (screenRegionOf e area pos gpos) cw = none) := by
  refine ⟨?_, ?_, ?_, ?_, ?_⟩
  · intro h
    unfold getActions
    rw [h]
  · intro e he ht
    unfold getActions
    rw [he]
    dsimp only
    rw [ht]
  · intro e i he ht hg
    unfold getActions
    rw [he]
    dsimp only
    rw [ht]
    dsimp only
    rw [hg]
  · intro e i t he ht hg hl
    unfold getActions
    rw [he]
    dsimp only
    rw [ht]
    dsimp only
    rw [hg]
    dsimp only
    rw [hl]
  · intro h
    unfold getActions at h
    cases hle : lookupE k s.cacheEntries with
    | none => exact Or.inl rfl
    | some e =>
      rw [hle] at h
      dsimp only at h
      cases hti : e.textureId with
      | none =>
        rw [hti] at h
        exact absurd h (by simp)
      | some tid =>
        rw [hti] at h
        dsimp only at h
        cases hget : s.textures.get? tid with
        | none =>
          rw [hget] at h
          exact absurd h (by simp)
        | some tex =>
          rw [hget] at h
          dsimp only at h
          cases hla : lookupE k tex.entries with
          | none =>
            rw [hla] at h
            exact absurd h (by simp)
          | some area =>
            rw [hla] at h
            dsimp only at h
            cases crop with
            | none => exact absurd h (by simp)
            | some cw =>
              dsimp only at h
              cases hint : RectQ.intersect (screenRegionOf e area pos gpos) cw with
              | none =>
                exact Or.inr ⟨cw, e, tid, tex, area, rfl, rfl, hti, hget, hla, hint⟩
              | some inter =>
                rw [hint] at h
                exact absurd h (by simp)

/-- Witness for C10 (amended): the panic clause applied to a cache holding
an entry for key 0 with `texture_id = None`. -/
theorem c10_witness :
    getActions c9State 0 (0, 0) (0, 0) none = RAct.panic :=
  (c10_lookup_panic c9State 0 (0, 0) (0, 0) none).2.1 ⟨⟨5, 5⟩, (0, 0), none⟩
    rfl rfl
